import Mathlib

/-!
Shallow embedding of the ADS1115 analog-to-digital converter driver
(`resources/PRIM_v3_01-Arduino Box/ads.cpp`).

The driver talks to the device over a two-wire bus.  We model the bus as a
trace of byte-level events plus a transport function supplying the bytes
returned by each read; every driver operation is embedded as a pure function
threading the driver state and the bus state.  Machine integers are modelled
as `Nat` (unsigned registers and bytes) and `Int` (the signed 16-bit
conversion result); `double` is modelled as `Rat` (exact real arithmetic).
The unbounded busy-wait loop `while (!conversionComplete());` is embedded
with an explicit fuel parameter: `none` means the loop is still running
after `fuel` iterations.
-/

namespace ADS1115

/-- Modelled from the spec: register address map (the header that defines the
`ADS1X15_REG_POINTER_*` constants is not in the repository sources; the spec
lists the four registers — conversion, config, low-threshold,
high-threshold).  Only distinctness and identity of the addresses matter to
the driver logic. -/
def REG_POINTER_CONVERT : Nat := 0x00

/-- Config register address. -/
def REG_POINTER_CONFIG : Nat := 0x01

/-- Low-threshold register address. -/
def REG_POINTER_LOWTHRESH : Nat := 0x02

/-- High-threshold register address. -/
def REG_POINTER_HITHRESH : Nat := 0x03

/-- Modelled from the spec: config-word field constants (defined in the
missing header).  The spec gives the bit layout, high to low: OS/start (1
bit, bit 15) · mux (3 bits, 14–12) · gain/PGA (3 bits, 11–9) · mode (1 bit,
8) · data rate (3 bits, 7–5) · comparator mode (1 bit, 4) · polarity (1 bit,
3) · latch (1 bit, 2) · queue (2 bits, 1–0).  `CQUE_1CONV` (assert after one
conversion), non-latching, active-low and traditional-comparator are the
all-zero codes of their fields. -/
def CQUE_1CONV : Nat := 0x0000

/-- Non-latching comparator (zero code of the latch field). -/
def CLAT_NONLAT : Nat := 0x0000

/-- Active-low alert/ready polarity (zero code of the polarity field). -/
def CPOL_ACTVLOW : Nat := 0x0000

/-- Traditional comparator mode (zero code of the comparator-mode field). -/
def CMODE_TRAD : Nat := 0x0000

/-- Continuous-conversion mode (zero code of the mode bit, bit 8). -/
def MODE_CONTIN : Nat := 0x0000

/-- Single-shot mode (mode bit, bit 8, set). -/
def MODE_SINGLE : Nat := 0x0100

/-- Start-single-conversion / operational-status bit (bit 15). -/
def OS_SINGLE : Nat := 0x8000

/-- Multiplexer code for the differential pair (AIN0, AIN1): mux field 0. -/
def MUX_DIFF_0_1 : Nat := 0x0000

/-- Multiplexer code for the differential pair (AIN2, AIN3): mux field 3. -/
def MUX_DIFF_2_3 : Nat := 0x3000

/-- A bus event: a transmission of bytes to the device, or a reception of
bytes from it.  A register write is a single `tx` of three bytes; a register
read is a `tx` of the one-byte register address followed by an `rx` of two
bytes. -/
inductive BusEvent where
  | tx (bytes : List Nat)
  | rx (bytes : List Nat)
deriving DecidableEq, Repr

/-- The transport collaborator: for the n-th read transaction of the whole
session it supplies the pair of bytes the device puts on the bus. -/
def Transport : Type := Nat → Nat × Nat

/-- The bus as seen by the driver: the injected transport, how many read
transactions have happened, and the chronological event trace. -/
structure BusState where
  t : Transport
  reads : Nat
  trace : List BusEvent

/-- `ADS1115::writeRegister`: frames the 16-bit value big-endian as
`[reg, value >> 8, value & 0xFF]` and transmits the three bytes. -/
def writeRegister (bs : BusState) (reg value : Nat) : BusState :=
  { bs with trace := bs.trace ++ [BusEvent.tx [reg, value >>> 8, value &&& 0xFF]] }

/-- `ADS1115::readRegister`: transmits the one-byte register address, then
receives two bytes and assembles them big-endian
(`(buffer[0] << 8) | buffer[1]`; the `uint8_t` buffer truncates each
received byte to 8 bits). -/
def readRegister (bs : BusState) (reg : Nat) : BusState × Nat :=
  let b0 := (bs.t bs.reads).1 % 256
  let b1 := (bs.t bs.reads).2 % 256
  ({ bs with reads := bs.reads + 1,
             trace := bs.trace ++ [BusEvent.tx [reg], BusEvent.rx [b0, b1]] },
   (b0 <<< 8) ||| b1)

/-- The driver instance's fields (`ADS1115` member variables). -/
structure DriverState where
  m_bitShift : Nat
  m_gain : Nat
  m_dataRate : Nat
  srcSel : Int
  readADC : Int
  converted : Rat
  inputMin : Int
  inputMax : Int
  outputMin : Rat
  outputMax : Rat

/-- `ADS1115::linearCal`: stores the four calibration fields, with no
validation of any kind (the body is four assignments). -/
def linearCal (st : DriverState) (iMin iMax : Int) (oMin oMax : Rat) : DriverState :=
  { st with inputMin := iMin, inputMax := iMax, outputMin := oMin, outputMax := oMax }

/-- The config word built by `ADS1115::startADCReading`: bitwise union of
the fixed comparator constants, the mode bit, the gain field, the data-rate
field, the mux field, and the start-single-conversion bit. -/
def encodeConfig (continuous : Bool) (gain rate mux : Nat) : Nat :=
  let c0 := CQUE_1CONV ||| CLAT_NONLAT ||| CPOL_ACTVLOW ||| CMODE_TRAD
  let c1 := if continuous then c0 ||| MODE_CONTIN else c0 ||| MODE_SINGLE
  c1 ||| gain ||| rate ||| mux ||| OS_SINGLE

/-- The gain bits of a config word (bits 11–9, pre-shifted). -/
def decodeGain (w : Nat) : Nat := w &&& 0x0E00

/-- The data-rate bits of a config word (bits 7–5, pre-shifted). -/
def decodeRate (w : Nat) : Nat := w &&& 0x00E0

/-- The multiplexer bits of a config word (bits 14–12, pre-shifted). -/
def decodeMux (w : Nat) : Nat := w &&& 0x7000

/-- The operating mode of a config word: `true` (continuous) iff the mode
bit (bit 8) is clear. -/
def decodeContinuous (w : Nat) : Bool := w &&& 0x0100 == 0

/-- `ADS1115::startADCReading`: writes the encoded config word to the config
register, then the sentinel `0x8000` to the high-threshold register, then
the sentinel `0x0000` to the low-threshold register. -/
def startADCReading (st : DriverState) (bs : BusState) (mux : Nat) (continuous : Bool) : BusState :=
  let config := encodeConfig continuous st.m_gain st.m_dataRate mux
  let bs1 := writeRegister bs REG_POINTER_CONFIG config
  let bs2 := writeRegister bs1 REG_POINTER_HITHRESH 0x8000
  writeRegister bs2 REG_POINTER_LOWTHRESH 0x0000

/-- `ADS1115::conversionComplete`: reads the config register and tests the
high-order status bit (`& 0x8000`). -/
def conversionComplete (bs : BusState) : BusState × Bool :=
  let r := readRegister bs REG_POINTER_CONFIG
  (r.1, (r.2 &&& 0x8000) != 0)

/-- The busy-wait loop `while (!conversionComplete());`, embedded with fuel:
`some bs` means the status bit was observed set within `fuel` polls, `none`
means the loop is still spinning after `fuel` polls.  The C code has no
bound at all. -/
def pollLoop : Nat → BusState → Option BusState
  | 0, _ => none
  | fuel + 1, bs =>
    let r := conversionComplete bs
    if r.2 then some r.1 else pollLoop fuel r.1

/-- Reinterpretation of a 16-bit unsigned value as a signed `int16_t`
(the C cast `(int16_t)res`). -/
def toInt16 (n : Nat) : Int :=
  if n % 65536 < 32768 then ((n % 65536 : Nat) : Int)
  else ((n % 65536 : Nat) : Int) - 65536

/-- The pure decode step of `ADS1115::getLastConversionResults` on a raw
conversion-register value: right-shift by `m_bitShift`; with shift 0 cast
directly to `int16_t`; with shift > 0, if the shifted value exceeds `0x07FF`
set the top four bits (`res |= 0xF000`) before the cast. -/
def decodeRaw (shift raw : Nat) : Int :=
  let res := raw >>> shift
  if shift == 0 then toInt16 res
  else toInt16 (if 0x07FF < res then res ||| 0xF000 else res)

/-- `ADS1115::getLastConversionResults`: reads the conversion register and
decodes it per `decodeRaw` with the instance's `m_bitShift`. -/
def getLastConversionResults (st : DriverState) (bs : BusState) : BusState × Int :=
  let r := readRegister bs REG_POINTER_CONVERT
  (r.1, decodeRaw st.m_bitShift r.2)

/-- `ADS1115::readADC_Differential_0_1` / `_2_3`, generic in the mux code:
start a single-shot conversion, poll until complete (under the given fuel),
then read the result. -/
def readADC_Differential (st : DriverState) (bs : BusState) (mux : Nat) (fuel : Nat) :
    Option (BusState × Int) :=
  let bs1 := startADCReading st bs mux false
  match pollLoop fuel bs1 with
  | none => none
  | some bs2 => some (getLastConversionResults st bs2)

/-- The calibration transform written inline in `ADS1115::measure`:
`((_outputMax - _outputMin) / (_inputMax - _inputMin)) * (readADC - _inputMin) + _outputMin`. -/
def toEngineeringUnits (st : DriverState) (raw : Int) : Rat :=
  ((st.outputMax - st.outputMin) / (((st.inputMax : Rat)) - ((st.inputMin : Rat))))
    * (((raw : Rat)) - ((st.inputMin : Rat))) + st.outputMin

/-- `ADS1115::measure`: stores the requested source, reads channel 0 or 1
for sources 0 and 1 respectively — any other source performs no bus
transaction and leaves the cached `readADC` as it was — then applies the
calibration transform to `readADC` and returns the converted value.
`none` means the poll loop did not finish within `fuel`. -/
def measure (st : DriverState) (bs : BusState) (source : Int) (fuel : Nat) :
    Option (DriverState × BusState × Rat) :=
  let st0 := { st with srcSel := source }
  let step : Option (DriverState × BusState) :=
    if source == 0 then
      match readADC_Differential st0 bs MUX_DIFF_0_1 fuel with
      | none => none
      | some r => some ({ st0 with readADC := r.2 }, r.1)
    else if source == 1 then
      match readADC_Differential st0 bs MUX_DIFF_2_3 fuel with
      | none => none
      | some r => some ({ st0 with readADC := r.2 }, r.1)
    else some (st0, bs)
  match step with
  | none => none
  | some r =>
    let conv := toEngineeringUnits r.1 r.1.readADC
    some ({ r.1 with converted := conv }, r.2, conv)

/-- The decode rule exactly as the specification words it (reference
definition for comparison with `decodeRaw`): right-shift the register value
by the resolution shift; with shift 0 reinterpret directly as a signed
16-bit integer; with shift > 0, if the remaining sign-relevant bit of the
shifted value (bit `15 - shift`) is set, sign-extend to the full 16-bit
width, i.e. subtract `2 ^ (16 - shift)`. -/
def spec_decodeRaw (shift raw : Nat) : Int :=
  let res := raw >>> shift
  if shift == 0 then toInt16 res
  else if res.testBit (15 - shift) then ((res : Nat) : Int) - 2 ^ (16 - shift)
  else ((res : Nat) : Int)

/-- A driver state with a simple identity calibration (domain [0, 1] to
range [0, 1]) and all other fields zeroed, used as a concrete instance. -/
def st0 : DriverState :=
  { m_bitShift := 0, m_gain := 0, m_dataRate := 0, srcSel := 0, readADC := 0,
    converted := 0, inputMin := 0, inputMax := 1, outputMin := 0, outputMax := 1 }

/-- A fresh bus whose transport always answers with zero bytes (the device
never reports the conversion-ready bit). -/
def bus0 : BusState := { t := fun _ => (0, 0), reads := 0, trace := [] }

/-- A transport that always answers with the byte pair (0xAB, 0xCD). -/
def tAB : Transport := fun _ => (0xAB, 0xCD)

/-- Masking with an all-ones low mask is reduction modulo a power of two. -/
lemma and_two_pow_sub_one (n k : Nat) : n &&& (2 ^ k - 1) = n % 2 ^ k := by
  apply Nat.eq_of_testBit_eq
  intro i
  rw [Nat.testBit_land, Nat.testBit_mod_two_pow, Nat.testBit_two_pow_sub_one, Bool.and_comm]

/-- Bitwise-or of a left-shifted value with a value below the shift width
is plain addition (the two operands occupy disjoint bits). -/
lemma shiftLeft_lor_eq_add (a k b : Nat) (hb : b < 2 ^ k) :
    (a <<< k) ||| b = a * 2 ^ k + b := by
  apply Nat.eq_of_testBit_eq
  intro i
  rw [Nat.testBit_lor, Nat.testBit_shiftLeft]
  rcases Nat.lt_or_ge i k with hi | hi
  · have hmod : (a * 2 ^ k + b) % 2 ^ k = b := by
      rw [Nat.mul_comm, Nat.mul_add_mod, Nat.mod_eq_of_lt hb]
    have : (a * 2 ^ k + b).testBit i = ((a * 2 ^ k + b) % 2 ^ k).testBit i := by
      rw [Nat.testBit_mod_two_pow]
      simp [hi]
    rw [this, hmod]
    simp [Nat.not_le.mpr hi]
  · have hb' : b.testBit i = false :=
      Nat.testBit_eq_false_of_lt (lt_of_lt_of_le hb (Nat.pow_le_pow_right (by norm_num) hi))
    have hdiv : (a * 2 ^ k + b) / 2 ^ k = a := by
      rw [Nat.mul_comm, Nat.mul_add_div (Nat.pos_pow_of_pos k (by norm_num)),
        Nat.div_eq_of_lt hb]
      omega
    have hsr : (a * 2 ^ k + b) >>> k = a := by
      rw [Nat.shiftRight_eq_div_pow, hdiv]
    have : (a * 2 ^ k + b).testBit i = a.testBit (i - k) := by
      have h2 := Nat.testBit_shiftRight (i := k) (j := i - k) (a * 2 ^ k + b)
      rw [hsr] at h2
      rw [h2]
      congr 1
      omega
    rw [this, hb']
    simp [hi]

/-- **C6.** For all (mode, gain, data-rate, mux) field codes, the config
word built by `startADCReading` decodes back to exactly the encoded fields:
the mode, gain, data-rate and multiplexer bitfields occupy disjoint bit
positions and field packing round-trips. -/
theorem encodeConfig_roundTrip :
    ∀ (c : Bool) (g r m : Fin 8),
      decodeGain (encodeConfig c (g.val <<< 9) (r.val <<< 5) (m.val <<< 12)) = g.val <<< 9
      ∧ decodeRate (encodeConfig c (g.val <<< 9) (r.val <<< 5) (m.val <<< 12)) = r.val <<< 5
      ∧ decodeMux (encodeConfig c (g.val <<< 9) (r.val <<< 5) (m.val <<< 12)) = m.val <<< 12
      ∧ decodeContinuous (encodeConfig c (g.val <<< 9) (r.val <<< 5) (m.val <<< 12)) = c := by
  decide

/-- **C5.** With a non-degenerate calibration, the mapper sends `inputMin`
to `outputMin` and `inputMax` to `outputMax` exactly, and on every raw
count (also outside `[inputMin, inputMax]` — no clamping) it computes
`(outputMax - outputMin) / (inputMax - inputMin) * (raw - inputMin) + outputMin`. -/
theorem toEngineeringUnits_affine (st : DriverState) (h : st.inputMax ≠ st.inputMin) :
    toEngineeringUnits st st.inputMin = st.outputMin
    ∧ toEngineeringUnits st st.inputMax = st.outputMax
    ∧ ∀ raw : Int,
        toEngineeringUnits st raw
          = (st.outputMax - st.outputMin) / ((st.inputMax : Rat) - (st.inputMin : Rat))
              * ((raw : Rat) - (st.inputMin : Rat)) + st.outputMin := by
  refine ⟨?_, ?_, fun _ => rfl⟩
  · simp [toEngineeringUnits]
  · have hne : ((st.inputMax : Rat)) - ((st.inputMin : Rat)) ≠ 0 :=
      sub_ne_zero.mpr (by exact_mod_cast h)
    unfold toEngineeringUnits
    rw [div_mul_cancel₀ _ hne]
    ring

/-- Witness for C5 at the concrete state `st0` (calibration domain [0, 1],
range [0, 1]). -/
theorem toEngineeringUnits_affine_witness :
    toEngineeringUnits st0 st0.inputMin = st0.outputMin
    ∧ toEngineeringUnits st0 st0.inputMax = st0.outputMax
    ∧ ∀ raw : Int,
        toEngineeringUnits st0 raw
          = (st0.outputMax - st0.outputMin) / ((st0.inputMax : Rat) - (st0.inputMin : Rat))
              * ((raw : Rat) - (st0.inputMin : Rat)) + st0.outputMin :=
  toEngineeringUnits_affine st0 (by decide)

/-- **C3 counterexample.** At shift 1 and raw register value `0x1000` the
shifted value is `0x0800`; its remaining sign-relevant bit (bit 14) is
clear, so the claimed rule yields the positive value 2048, but the code's
hardcoded `res > 0x07FF` test fires and `res |= 0xF000` produces -2048. -/
theorem decodeRaw_shift1_deviates :
    decodeRaw 1 0x1000 = -2048 ∧ spec_decodeRaw 1 0x1000 = 2048 := by
  constructor <;> decide

/-- **C3 (amended).** The decode agrees with the claimed sign-extension
rule exactly for the two device-variant shifts: shift 0 (direct signed
16-bit reinterpretation) and shift 4 (the 12-bit variant, whose boundary
`0x07FF` and mask `0xF000` the code hardcodes). -/
theorem decodeRaw_matches_spec_shift0_and_4 :
    ∀ raw : Nat, raw < 65536 →
      decodeRaw 0 raw = spec_decodeRaw 0 raw ∧ decodeRaw 4 raw = spec_decodeRaw 4 raw := by
  intro raw hraw
  constructor
  · rfl
  · have hres : raw >>> 4 < 4096 := by
      rw [Nat.shiftRight_eq_div_pow]
      omega
    unfold decodeRaw spec_decodeRaw
    simp only [show (4 == 0) = false from rfl, Bool.false_eq_true, if_false]
    have htb : (raw >>> 4).testBit (15 - 4) = decide (2048 ≤ raw >>> 4) := by
      rw [Nat.testBit_to_div_mod]
      rcases Nat.lt_or_ge (raw >>> 4) 2048 with hc | hc
      · have : raw >>> 4 / 2 ^ 11 = 0 := Nat.div_eq_of_lt (by norm_num at hc ⊢; omega)
        simp [this]
        omega
      · have : raw >>> 4 / 2 ^ 11 = 1 := by
          have h1 : (2 : Nat) ^ 11 = 2048 := by norm_num
          rw [h1]
          omega
        simp [this]
        omega
    rcases Nat.lt_or_ge (raw >>> 4) 2048 with hc | hc
    · have h1 : ¬ (0x07FF < raw >>> 4) := by omega
      have h2 : (raw >>> 4).testBit (15 - 4) = false := by
        rw [htb]
        simp
        omega
      rw [if_neg h1, h2]
      simp only [Bool.false_eq_true, if_false]
      unfold toInt16
      rw [Nat.mod_eq_of_lt (by omega)]
      rw [if_pos (by omega)]
    · have h1 : 0x07FF < raw >>> 4 := by omega
      have h2 : (raw >>> 4).testBit (15 - 4) = true := by
        rw [htb]
        simp
        omega
      rw [if_pos h1, h2]
      simp only [if_true]
      have hor : (raw >>> 4) ||| 0xF000 = 61440 + raw >>> 4 := by
        rw [Nat.lor_comm]
        have := shiftLeft_lor_eq_add 15 12 (raw >>> 4) (by norm_num; omega)
        simpa using this
      rw [hor]
      unfold toInt16
      rw [Nat.mod_eq_of_lt (by omega)]
      rw [if_neg (by omega)]
      push_cast
      omega

/-- Witness for C3's amended theorem at raw register value `0x8000`. -/
theorem decodeRaw_matches_spec_witness :
    (0x8000 : Nat) < 65536
    ∧ (decodeRaw 0 0x8000 = spec_decodeRaw 0 0x8000
       ∧ decodeRaw 4 0x8000 = spec_decodeRaw 4 0x8000) :=
  ⟨by decide, decodeRaw_matches_spec_shift0_and_4 0x8000 (by decide)⟩

/-- **C8.** A register write transmits exactly the three bytes
[register address, high byte, low byte] — the two data bytes are genuine
bytes and reassemble big-endian to the written 16-bit value — and a
register read transmits the one-byte register address and then receives two
bytes interpreted big-endian (first byte is the high byte of the result). -/
theorem register_io_byte_framing :
    ∀ (bs : BusState) (reg value : Nat) (t : Transport) (n : Nat)
      (tr : List BusEvent) (b0 b1 : Nat),
      value < 65536 → b0 < 256 → b1 < 256 → t n = (b0, b1) →
      (writeRegister bs reg value).trace
          = bs.trace ++ [BusEvent.tx [reg, value >>> 8, value &&& 0xFF]]
      ∧ value >>> 8 < 256
      ∧ value &&& 0xFF < 256
      ∧ (value >>> 8) * 256 + (value &&& 0xFF) = value
      ∧ (readRegister { t := t, reads := n, trace := tr } reg).2 = b0 * 256 + b1
      ∧ (readRegister { t := t, reads := n, trace := tr } reg).1.trace
          = tr ++ [BusEvent.tx [reg], BusEvent.rx [b0, b1]] := by
  intro bs reg value t n tr b0 b1 hv h0 h1 ht
  have hsr : value >>> 8 = value / 256 := by
    rw [Nat.shiftRight_eq_div_pow]
  have hand : value &&& 0xFF = value % 256 := by
    have := and_two_pow_sub_one value 8
    norm_num at this
    exact this
  refine ⟨rfl, ?_, ?_, ?_, ?_, ?_⟩
  · rw [hsr]
    omega
  · rw [hand]
    omega
  · rw [hsr, hand]
    omega
  · show ((t n).1 % 256) <<< 8 ||| ((t n).2 % 256) = b0 * 256 + b1
    rw [ht]
    simp only [Nat.mod_eq_of_lt h0, Nat.mod_eq_of_lt h1]
    have := shiftLeft_lor_eq_add b0 8 b1 (by norm_num; omega)
    simpa using this
  · show tr ++ [BusEvent.tx [reg], BusEvent.rx [(t n).1 % 256, (t n).2 % 256]]
        = tr ++ [BusEvent.tx [reg], BusEvent.rx [b0, b1]]
    rw [ht]
    simp [Nat.mod_eq_of_lt h0, Nat.mod_eq_of_lt h1]

/-- Witness for C8: a write of `0xABCD` to register 1 on the fresh bus, and
a read through the transport that answers (0xAB, 0xCD). -/
theorem register_io_byte_framing_witness :
    (writeRegister bus0 1 0xABCD).trace
        = bus0.trace ++ [BusEvent.tx [1, 0xABCD >>> 8, 0xABCD &&& 0xFF]]
    ∧ (0xABCD : Nat) >>> 8 < 256
    ∧ (0xABCD : Nat) &&& 0xFF < 256
    ∧ ((0xABCD : Nat) >>> 8) * 256 + (0xABCD &&& 0xFF) = 0xABCD
    ∧ (readRegister { t := tAB, reads := 0, trace := [] } 1).2 = 0xAB * 256 + 0xCD
    ∧ (readRegister { t := tAB, reads := 0, trace := [] } 1).1.trace
        = [] ++ [BusEvent.tx [1], BusEvent.rx [0xAB, 0xCD]] :=
  register_io_byte_framing bus0 1 0xABCD tAB 0 [] 0xAB 0xCD
    (by decide) (by decide) (by decide) rfl

/-- **C4.** The calibration setter installs a degenerate domain
(`inputMax = inputMin`) verbatim for every attempted value: the body is
four unconditional assignments, so nothing is rejected at configuration
time (the spec requires a DegenerateCalibration error here). -/
theorem linearCal_accepts_degenerate :
    ∀ (st : DriverState) (iMin : Int) (oMin oMax : Rat),
      (linearCal st iMin iMin oMin oMax).inputMin = iMin
      ∧ (linearCal st iMin iMin oMin oMax).inputMax = iMin
      ∧ (linearCal st iMin iMin oMin oMax).outputMin = oMin
      ∧ (linearCal st iMin iMin oMin oMax).outputMax = oMax :=
  fun _ _ _ _ => ⟨rfl, rfl, rfl, rfl⟩

/-- A driver state carrying a stale raw reading of 100 counts and the
calibration (inputMin 0, inputMax 1000, outputMin 0, outputMax 10). -/
def stC1 : DriverState :=
  { m_bitShift := 0, m_gain := 0, m_dataRate := 0, srcSel := 0, readADC := 100,
    converted := 0, inputMin := 0, inputMax := 1000, outputMin := 0, outputMax := 10 }

/-- **C1 (failing input).** `measure 2` — a source outside {0, 1} — does
not produce any error: it succeeds, leaving the bus untouched, and returns
1, the calibration transform of the stale raw reading 100 cached from the
previous measurement. -/
theorem measure_invalid_source_returns_stale :
    measure stC1 bus0 2 0 = some ({ stC1 with srcSel := 2, converted := 1 }, bus0, 1) := by
  have e0 : ((2 : Int) == 0) = false := by decide
  have e1 : ((2 : Int) == 1) = false := by decide
  simp only [measure, e0, e1, Bool.false_eq_true, if_false]
  have hval : toEngineeringUnits { stC1 with srcSel := (2 : Int) } stC1.readADC = 1 := by
    norm_num [toEngineeringUnits, stC1]
  rw [hval]

/-- **C10.** For every source outside {0, 1}, `measure` still overwrites
the stored channel selector with the requested source, performs no bus
transaction (the bus state is returned untouched), and returns the
calibration transform applied to the raw count cached from the previous
measurement. -/
theorem measure_invalid_source_behavior :
    ∀ (st : DriverState) (bs : BusState) (source : Int) (fuel : Nat),
      source ≠ 0 → source ≠ 1 →
      measure st bs source fuel
        = some ({ st with srcSel := source,
                          converted := toEngineeringUnits st st.readADC },
                bs, toEngineeringUnits st st.readADC) := by
  intro st bs source fuel h0 h1
  have e0 : (source == 0) = false := by simpa using h0
  have e1 : (source == 1) = false := by simpa using h1
  simp only [measure, e0, e1, Bool.false_eq_true, if_false]
  rfl

/-- Witness for C10 at source 2, the concrete state `stC1` and the fresh
bus. -/
theorem measure_invalid_source_behavior_witness :
    measure stC1 bus0 2 0
      = some ({ stC1 with srcSel := 2,
                          converted := toEngineeringUnits stC1 stC1.readADC },
              bus0, toEngineeringUnits stC1 stC1.readADC) :=
  measure_invalid_source_behavior stC1 bus0 2 0 (by decide) (by decide)

/-- **C2 (failing input).** Under a transport that never reports the
conversion-ready bit, the busy-wait loop is still spinning after every
iteration budget — for every fuel the poll returns `none` — and a channel-0
measurement likewise never produces any result (in particular no Timeout
report): the C loop `while (!conversionComplete());` has no bound at all. -/
theorem pollLoop_never_ready_spins_forever :
    ∀ fuel : Nat,
      (∀ (n : Nat) (tr : List BusEvent),
        pollLoop fuel { t := fun _ => (0, 0), reads := n, trace := tr } = none)
      ∧ measure st0 bus0 0 fuel = none := by
  have hpoll : ∀ (fuel n : Nat) (tr : List BusEvent),
      pollLoop fuel { t := fun _ => (0, 0), reads := n, trace := tr } = none := by
    intro fuel
    induction fuel with
    | zero => intro n tr; rfl
    | succ f ih =>
      intro n tr
      have hstep : conversionComplete { t := fun _ => (0, 0), reads := n, trace := tr }
          = ({ t := fun _ => (0, 0), reads := n + 1,
               trace := tr ++ [BusEvent.tx [REG_POINTER_CONFIG], BusEvent.rx [0, 0]] }, false) := by
        simp [conversionComplete, readRegister]
      show pollLoop (f + 1) _ = none
      rw [pollLoop, hstep]
      exact ih (n + 1) _
  intro fuel
  refine ⟨hpoll fuel, ?_⟩
  show measure st0 bus0 0 fuel = none
  have hrun : pollLoop fuel (startADCReading { st0 with srcSel := 0 } bus0 MUX_DIFF_0_1 false)
      = none := hpoll fuel 0 _
  simp only [measure, readADC_Differential, hrun]
  rfl

/-- A bus event belonging to a register read: the one-byte address
transmission or a reception.  A register write (a three-byte transmission)
is not a read event. -/
def isReadEvent : BusEvent → Bool
  | BusEvent.tx l => l.length == 1
  | BusEvent.rx _ => true

/-- The trace contract of one `measure` call (claim C7): exactly three
register writes happen first, in order — the encoded config word to the
config register, the "ready" sentinel `0x8000` to the high-threshold
register, the "not-ready" sentinel `0x0000` to the low-threshold register —
the config word has the start-single-conversion bit (bit 15) set, and every
later event of the call belongs to a register read (polling and result
retrieval), so no further register write occurs. -/
def configThenReadOnly (st : DriverState) (bs bs' : BusState) (mux : Nat) : Prop :=
  ∃ rest : List BusEvent,
    bs'.trace
        = bs.trace
          ++ [BusEvent.tx [REG_POINTER_CONFIG,
                encodeConfig false st.m_gain st.m_dataRate mux >>> 8,
                encodeConfig false st.m_gain st.m_dataRate mux &&& 0xFF],
              BusEvent.tx [REG_POINTER_HITHRESH, 0x80, 0x00],
              BusEvent.tx [REG_POINTER_LOWTHRESH, 0x00, 0x00]]
          ++ rest
    ∧ rest.all isReadEvent = true
    ∧ (encodeConfig false st.m_gain st.m_dataRate mux).testBit 15 = true

/-- The start-single-conversion bit is set in every encoded config word. -/
lemma encodeConfig_testBit15 (c : Bool) (g r m : Nat) :
    (encodeConfig c g r m).testBit 15 = true := by
  unfold encodeConfig
  simp only [Nat.testBit_lor, Bool.or_eq_true]
  exact Or.inr (by decide)

/-- `startADCReading` appends exactly the three register-write frames. -/
lemma startADCReading_trace (st : DriverState) (bs : BusState) (mux : Nat) (cont : Bool) :
    (startADCReading st bs mux cont).trace
      = bs.trace
        ++ [BusEvent.tx [REG_POINTER_CONFIG,
              encodeConfig cont st.m_gain st.m_dataRate mux >>> 8,
              encodeConfig cont st.m_gain st.m_dataRate mux &&& 0xFF],
            BusEvent.tx [REG_POINTER_HITHRESH, 0x80, 0x00],
            BusEvent.tx [REG_POINTER_LOWTHRESH, 0x00, 0x00]] := by
  simp [startADCReading, writeRegister]
  decide

/-- Polling only appends read events to the trace. -/
lemma pollLoop_trace_readOnly :
    ∀ (fuel : Nat) (bs bs' : BusState), pollLoop fuel bs = some bs' →
      ∃ rest, bs'.trace = bs.trace ++ rest ∧ rest.all isReadEvent = true := by
  intro fuel
  induction fuel with
  | zero => intro bs bs' h; cases h
  | succ f ih =>
    intro bs bs' h
    rw [pollLoop] at h
    have hfst : (conversionComplete bs).1.trace
        = bs.trace ++ [BusEvent.tx [REG_POINTER_CONFIG],
            BusEvent.rx [(bs.t bs.reads).1 % 256, (bs.t bs.reads).2 % 256]] := rfl
    by_cases hc : (conversionComplete bs).2 = true
    · rw [if_pos hc] at h
      cases h
      exact ⟨_, hfst, rfl⟩
    · rw [if_neg hc] at h
      obtain ⟨rest, hr, hall⟩ := ih _ _ h
      refine ⟨[BusEvent.tx [REG_POINTER_CONFIG],
          BusEvent.rx [(bs.t bs.reads).1 % 256, (bs.t bs.reads).2 % 256]] ++ rest, ?_, ?_⟩
      · rw [hr, hfst, List.append_assoc]
      · rw [List.all_append]
        simp [isReadEvent, hall]

/-- Reading the conversion result appends exactly one read transaction. -/
lemma getLastConversionResults_trace (st : DriverState) (bs : BusState) :
    (getLastConversionResults st bs).1.trace
      = bs.trace ++ [BusEvent.tx [REG_POINTER_CONVERT],
          BusEvent.rx [(bs.t bs.reads).1 % 256, (bs.t bs.reads).2 % 256]] := rfl

/-- A completed channel read produces the C7 trace shape. -/
lemma readADC_Differential_trace (st : DriverState) (bs : BusState) (mux fuel : Nat)
    (bs' : BusState) (v : Int) :
    readADC_Differential st bs mux fuel = some (bs', v) →
    configThenReadOnly st bs bs' mux := by
  intro h
  simp only [readADC_Differential] at h
  rcases hp : pollLoop fuel (startADCReading st bs mux false) with _ | bs2
  · rw [hp] at h
    cases h
  · rw [hp] at h
    obtain ⟨rest1, hr1, hall1⟩ := pollLoop_trace_readOnly fuel _ _ hp
    have hbs' : bs' = (getLastConversionResults st bs2).1 :=
      (congrArg Prod.fst (Option.some.inj h)).symm
    refine ⟨rest1 ++ [BusEvent.tx [REG_POINTER_CONVERT],
        BusEvent.rx [(bs2.t bs2.reads).1 % 256, (bs2.t bs2.reads).2 % 256]], ?_, ?_, ?_⟩
    · rw [hbs', getLastConversionResults_trace, hr1, startADCReading_trace, List.append_assoc,
        List.append_assoc]
    · rw [List.all_append]
      simp [isReadEvent, hall1]
    · exact encodeConfig_testBit15 false st.m_gain st.m_dataRate mux

/-- **C7.** Every measurement of a valid channel (source 0 or 1) performs
exactly three register writes before polling — the encoded config word
(with the start-single-conversion bit set) to the config register, then the
ready sentinel `0x8000` to the high-threshold register, then the not-ready
sentinel `0x0000` to the low-threshold register — and every subsequent bus
event of the call belongs to a register read.  The shape holds for every
prior driver state and bus trace: nothing is cached between calls, each
call rewrites the full configuration. -/
theorem measure_writes_config_thresholds_then_polls :
    ∀ (st : DriverState) (bs : BusState) (fuel : Nat) (st' : DriverState)
      (bs' : BusState) (q : Rat),
      (measure st bs 0 fuel = some (st', bs', q) →
        configThenReadOnly st bs bs' MUX_DIFF_0_1)
      ∧ (measure st bs 1 fuel = some (st', bs', q) →
        configThenReadOnly st bs bs' MUX_DIFF_2_3) := by
  intro st bs fuel st' bs' q
  constructor
  · intro h
    simp only [measure, show ((0 : Int) == 0) = true from rfl, if_true] at h
    rcases hr : readADC_Differential { st with srcSel := (0 : Int) } bs MUX_DIFF_0_1 fuel
      with _ | r
    · rw [hr] at h
      cases h
    · rw [hr] at h
      simp only [Option.some.injEq, Prod.mk.injEq] at h
      obtain ⟨-, hbs', -⟩ := h
      rw [← hbs']
      have hmain := readADC_Differential_trace { st with srcSel := (0 : Int) } bs
        MUX_DIFF_0_1 fuel r.1 r.2 (by rw [hr])
      exact hmain
  · intro h
    simp only [measure, show ((1 : Int) == 0) = false from rfl,
      show ((1 : Int) == 1) = true from rfl, Bool.false_eq_true, if_false, if_true] at h
    rcases hr : readADC_Differential { st with srcSel := (1 : Int) } bs MUX_DIFF_2_3 fuel
      with _ | r
    · rw [hr] at h
      cases h
    · rw [hr] at h
      simp only [Option.some.injEq, Prod.mk.injEq] at h
      obtain ⟨-, hbs', -⟩ := h
      rw [← hbs']
      have hmain := readADC_Differential_trace { st with srcSel := (1 : Int) } bs
        MUX_DIFF_2_3 fuel r.1 r.2 (by rw [hr])
      exact hmain

/-- A transport whose every read answers (0x80, 0x00): the config register
reads back with the status bit set (conversion ready at the first poll) and
the conversion register reads back as 0x8000. -/
def tReady : Transport := fun _ => (0x80, 0x00)

/-- Witness for C7: a channel-0 measurement through `tReady` completes with
one poll, and its trace is the three register writes followed by two read
transactions. -/
theorem measure_writes_config_thresholds_then_polls_witness :
    configThenReadOnly st0 { t := tReady, reads := 0, trace := [] }
      { t := tReady, reads := 2,
        trace := [BusEvent.tx [0x01, 0x81, 0x00], BusEvent.tx [0x03, 0x80, 0x00],
          BusEvent.tx [0x02, 0x00, 0x00], BusEvent.tx [0x01], BusEvent.rx [0x80, 0x00],
          BusEvent.tx [0x00], BusEvent.rx [0x80, 0x00]] }
      MUX_DIFF_0_1 :=
  (measure_writes_config_thresholds_then_polls st0 { t := tReady, reads := 0, trace := [] } 1
      { st0 with srcSel := 0, readADC := -32768, converted := -32768 }
      { t := tReady, reads := 2,
        trace := [BusEvent.tx [0x01, 0x81, 0x00], BusEvent.tx [0x03, 0x80, 0x00],
          BusEvent.tx [0x02, 0x00, 0x00], BusEvent.tx [0x01], BusEvent.rx [0x80, 0x00],
          BusEvent.tx [0x00], BusEvent.rx [0x80, 0x00]] }
      (-32768)).1
    (by with_unfolding_all rfl)

/-- **C9.** A measurement call — whatever the source value and however it
terminates — leaves the gain, data-rate, resolution-shift and all four
calibration fields of the driver state unchanged; only the explicit setters
mutate them. -/
theorem measure_preserves_settings :
    ∀ (st : DriverState) (bs : BusState) (source : Int) (fuel : Nat)
      (st' : DriverState) (bs' : BusState) (q : Rat),
      measure st bs source fuel = some (st', bs', q) →
      st'.m_gain = st.m_gain ∧ st'.m_dataRate = st.m_dataRate
      ∧ st'.m_bitShift = st.m_bitShift
      ∧ st'.inputMin = st.inputMin ∧ st'.inputMax = st.inputMax
      ∧ st'.outputMin = st.outputMin ∧ st'.outputMax = st.outputMax := by
  intro st bs source fuel st' bs' q h
  by_cases h0 : (source == 0) = true
  · simp only [measure, h0, if_true] at h
    rcases hr : readADC_Differential { st with srcSel := source } bs MUX_DIFF_0_1 fuel
      with _ | r
    · rw [hr] at h
      cases h
    · rw [hr] at h
      simp only [Option.some.injEq, Prod.mk.injEq] at h
      obtain ⟨hst, -, -⟩ := h
      rw [← hst]
      exact ⟨rfl, rfl, rfl, rfl, rfl, rfl, rfl⟩
  · have e0 : (source == 0) = false := by
      simp only [Bool.not_eq_true] at h0
      exact h0
    by_cases h1 : (source == 1) = true
    · simp only [measure, e0, h1, Bool.false_eq_true, if_false, if_true] at h
      rcases hr : readADC_Differential { st with srcSel := source } bs MUX_DIFF_2_3 fuel
        with _ | r
      · rw [hr] at h
        cases h
      · rw [hr] at h
        simp only [Option.some.injEq, Prod.mk.injEq] at h
        obtain ⟨hst, -, -⟩ := h
        rw [← hst]
        exact ⟨rfl, rfl, rfl, rfl, rfl, rfl, rfl⟩
    · have e1 : (source == 1) = false := by
        simp only [Bool.not_eq_true] at h1
        exact h1
      simp only [measure, e0, e1, Bool.false_eq_true, if_false] at h
      simp only [Option.some.injEq, Prod.mk.injEq] at h
      obtain ⟨hst, -, -⟩ := h
      rw [← hst]
      exact ⟨rfl, rfl, rfl, rfl, rfl, rfl, rfl⟩

/-- Witness for C9: a source-2 call at the concrete state `st0`. -/
theorem measure_preserves_settings_witness :
    ({ st0 with srcSel := 2, converted := 0 } : DriverState).m_gain = st0.m_gain
    ∧ ({ st0 with srcSel := 2, converted := 0 } : DriverState).m_dataRate = st0.m_dataRate
    ∧ ({ st0 with srcSel := 2, converted := 0 } : DriverState).m_bitShift = st0.m_bitShift
    ∧ ({ st0 with srcSel := 2, converted := 0 } : DriverState).inputMin = st0.inputMin
    ∧ ({ st0 with srcSel := 2, converted := 0 } : DriverState).inputMax = st0.inputMax
    ∧ ({ st0 with srcSel := 2, converted := 0 } : DriverState).outputMin = st0.outputMin
    ∧ ({ st0 with srcSel := 2, converted := 0 } : DriverState).outputMax = st0.outputMax :=
  measure_preserves_settings st0 bus0 2 0 { st0 with srcSel := 2, converted := 0 } bus0 0
    (by with_unfolding_all rfl)

end ADS1115
